import Mathlib

/-!
Verification of the FramesGen frame-sequence builder.

The Python source (src/llm_service.py, src/image_service.py, src/models.py)
is shallowly embedded here.  Python strings are modelled as `List Char`;
the relevant Python string primitives (`str.strip`, `str.split`,
`str.replace`, `int(...)`, `str(int)`) are given executable models below.
Deviations of the models from full CPython behaviour (unicode whitespace
beyond the ASCII set, underscores in integer literals, unicode digits) are
noted at the definitions; none of the claims depend on those corners.
-/

/-- The six whitespace characters recognised by Python's `str.strip()`
(ASCII range; other unicode whitespace is not modelled). -/
def isPySpace (c : Char) : Bool :=
  c = ' ' || c = '\t' || c = '\n' || c = '\x0d' || c = '\x0b' || c = '\x0c'

/-- Model of Python `s.strip()`: remove leading and trailing whitespace. -/
def pyStrip (s : List Char) : List Char :=
  ((s.dropWhile isPySpace).reverse.dropWhile isPySpace).reverse

/-- Model of Python `s.split(sep)` for a one-character separator `sep`:
never returns the empty list; `"".split(sep) == [""]`. -/
def pySplitChar (sep : Char) : List Char → List (List Char)
  | [] => [[]]
  | x :: xs =>
    match pySplitChar sep xs with
    | [] => [[]]
    | h :: t => if x = sep then [] :: h :: t else (x :: h) :: t

/-- Model of Python `s.split(sep, 1)` for a one-character separator:
`[s]` when `sep` does not occur, else `[before, after]` split at the
first occurrence. -/
def pySplitOnce (sep : Char) : List Char → List (List Char)
  | [] => [[]]
  | x :: xs =>
    if x = sep then [[], xs]
    else
      match pySplitOnce sep xs with
      | [] => [[x]]
      | h :: t => (x :: h) :: t

/-- Fuel-driven worker for `pyReplace`; the fuel is an upper bound on the
string length, so it never runs out at the call site in `pyReplace`. -/
def pyReplaceAux (pat repl : List Char) : Nat → List Char → List Char
  | 0, s => s
  | fuel + 1, s =>
    match s with
    | [] => []
    | x :: xs =>
      if pat.isPrefixOf (x :: xs) then
        repl ++ pyReplaceAux pat repl fuel ((x :: xs).drop pat.length)
      else
        x :: pyReplaceAux pat repl fuel xs

/-- Model of Python `s.replace(pat, repl)`: replace non-overlapping
occurrences of `pat` left to right.  The Python corner case of an empty
`pat` with a non-empty `repl` (interleaving) is not modelled; the source
only ever calls `replace` with `repl` of the shapes `""` and `"_"` and a
non-empty `pat`, except for `generated_text.replace(prompt, "")` where an
empty `prompt` with `repl = ""` is the identity in Python as well. -/
def pyReplace (pat repl s : List Char) : List Char :=
  if pat = [] then s else pyReplaceAux pat repl s.length s

/-- The decimal digit character for `d < 10`. -/
def digitChar (d : Nat) : Char :=
  ['0', '1', '2', '3', '4', '5', '6', '7', '8', '9'].getD d '0'

/-- Fuel-driven worker for `natToChars`. -/
def natToCharsAux : Nat → Nat → List Char
  | 0, _ => []
  | fuel + 1, n =>
    if n < 10 then [digitChar n]
    else natToCharsAux fuel (n / 10) ++ [digitChar (n % 10)]

/-- Decimal rendering of a natural number (model of Python `str` on a
non-negative `int`). -/
def natToChars (n : Nat) : List Char :=
  natToCharsAux (n + 1) n

/-- Model of Python `str` on an `int` (as used by f-string interpolation). -/
def intToChars (i : Int) : List Char :=
  if i < 0 then '-' :: natToChars i.natAbs else natToChars i.toNat

/-- Numeric value of a digit string read left to right. -/
def digitsToNat (l : List Char) : Nat :=
  l.foldl (fun a c => a * 10 + (c.toNat - 48)) 0

/-- All-digit check plus evaluation: the digits part of Python `int(...)`.
(Underscore digit grouping and non-ASCII digits are not modelled.) -/
def parseNatDigits (l : List Char) : Option Nat :=
  if l = [] then none
  else if l.all Char.isDigit then some (digitsToNat l) else none

/-- Model of Python `int(s)` on a string: strip whitespace, optional
sign, then decimal digits; `none` models the `ValueError`. -/
def pyParseInt (s : List Char) : Option Int :=
  let t := pyStrip s
  if t = [] then none
  else if t.headD ' ' = '-' then (parseNatDigits t.tail).map (fun n => -(n : Int))
  else if t.headD ' ' = '+' then (parseNatDigits t.tail).map (fun n => (n : Int))
  else (parseNatDigits t).map (fun n => (n : Int))

/-- src/models.py: `FrameDescription` — a description plus a sequential
frame number (Python ints are unbounded, hence `Int`). -/
structure FrameDescription where
  description : List Char
  frame_number : Int
deriving DecidableEq, Repr

/-- Model of Python `sep.join(parts)`. -/
def pyJoin (sep : List Char) : List (List Char) → List Char
  | [] => []
  | [x] => x
  | x :: y :: xs => x ++ sep ++ pyJoin sep (y :: xs)

/-- src/llm_service.py line 154: the f-string `f"Frame {f.frame_number}:
{f.description}"` for one frame. -/
def render_line (f : FrameDescription) : List Char :=
  "Frame ".toList ++ intToChars f.frame_number ++ ": ".toList ++ f.description

/-- src/llm_service.py line 154: the `"\n".join(...)` rendering of a
frame list used to build the refine request. -/
def render_frames (frames : List FrameDescription) : List Char :=
  pyJoin ['\n'] (frames.map render_line)

/-- Spec-side predicate: the frame numbers of a list are `n, n + 1, n +
2, ...` contiguously in ascending order (used to state the claims about
contiguous `1..N` numbering). -/
def numberedFrom : Int → List FrameDescription → Prop
  | _, [] => True
  | n, f :: t => f.frame_number = n ∧ numberedFrom (n + 1) t

/-- src/llm_service.py lines 185-199: parse of one line of the refine
reply.  A line yields a frame only if (after `strip`) it is non-empty,
starts with `"Frame"`, splits at a `':'` into two parts, and the part
before the `':'` parses as an integer after deleting `"Frame"`; any
failure yields `none` (the `except: continue`). -/
def refineParseLine (line0 : List Char) : Option FrameDescription :=
  if pyStrip line0 = [] then none
  else if "Frame".toList.isPrefixOf (pyStrip line0) then
    match pySplitOnce ':' (pyStrip line0) with
    | [p0, p1] =>
      match pyParseInt (pyStrip (pyReplace "Frame".toList [] p0)) with
      | some n => some ⟨pyStrip p1, n⟩
      | none => none
    | _ => none
  else none

/-- src/llm_service.py lines 182-199: the refine reply is split into
lines (after a global `strip`) and every qualifying line contributes one
parsed frame, in order. -/
def refineParse (response : List Char) : List FrameDescription :=
  (pySplitChar '\n' (pyStrip response)).filterMap refineParseLine

/-- Python `dict` insertion: overwrite in place if the key is present,
else append at the end (preserving Python 3.7+ insertion order). -/
def dictInsert (m : List (Int × List Char)) (k : Int) (v : List Char) :
    List (Int × List Char) :=
  if m.any (fun p => p.1 = k) then
    m.map (fun p => if p.1 = k then (k, v) else p)
  else m ++ [(k, v)]

/-- Python `dict` key lookup (first — and by construction only — match). -/
def dictGet (m : List (Int × List Char)) (k : Int) : Option (List Char) :=
  (m.find? (fun p => p.1 = k)).map (fun p => p.2)

/-- src/llm_service.py line 204: `{f.frame_number: f.description for f in
refined_frames}` — the dict comprehension, later entries overwriting. -/
def buildRefinedMap (l : List FrameDescription) : List (Int × List Char) :=
  l.foldl (fun m f => dictInsert m f.frame_number f.description) []

/-- src/llm_service.py lines 182-220 with the completion reply given as
the `response` argument: parse the reply, then — only when the parsed
count differs from the input count — reconcile against the original
list; otherwise return the parsed frames unchanged. -/
def refine_pure (frames : List FrameDescription) (response : List Char) :
    List FrameDescription :=
  if (refineParse response).length ≠ frames.length then
    frames.map (fun original =>
      match dictGet (buildRefinedMap (refineParse response)) original.frame_number with
      | some d => ⟨d, original.frame_number⟩
      | none => original)
  else refineParse response

/-- src/llm_service.py lines 86-97: the loose first-pass parse of the
generate reply.  `frame_num` is the running Python counter starting at 1;
a stripped line is accepted when it is non-empty and starts with
`"Frame"`, `f"{frame_num}."`, or `f"{frame_num}:"`; the description is
the text after the first `':'`, or after the first `'.'` when there is
no `':'`; accepted lines are numbered by the counter, which increments
only on acceptance. -/
def genParseGo : List (List Char) → Nat → List FrameDescription
  | [], _ => []
  | line0 :: rest, frame_num =>
    if pyStrip line0 ≠ [] ∧
        ("Frame".toList.isPrefixOf (pyStrip line0) ∨
         (natToChars frame_num ++ ['.']).isPrefixOf (pyStrip line0) ∨
         (natToChars frame_num ++ [':']).isPrefixOf (pyStrip line0)) then
      ⟨(if ':' ∈ pyStrip line0 then
          pyStrip ((pySplitOnce ':' (pyStrip line0)).getLastD [])
        else pyStrip ((pySplitOnce '.' (pyStrip line0)).getLastD [])),
        (frame_num : Int)⟩ :: genParseGo rest (frame_num + 1)
    else genParseGo rest frame_num

/-- src/llm_service.py lines 86-97: first-pass parse of the whole
generate reply, starting the counter at 1. -/
def generate_first_parse (response : List Char) : List FrameDescription :=
  genParseGo (pySplitChar '\n' (pyStrip response)) 1

/-- src/llm_service.py line 144: the placeholder description synthesised
from the original prompt. -/
def placeholderDescription (prompt : List Char) : List Char :=
  "Continuation of the scene from ".toList ++ prompt

/-- src/llm_service.py lines 132-138: the taking loop of the structured
parse.  `i` is the 0-based `enumerate` index over ALL lines; a stripped
line is taken when it is non-empty and `i < num_frames`, is numbered
`i + 1` (by line index, not by count of lines taken), and its
description is the text after the first `':'` when one is present, else
the whole stripped line. -/
def structTakeGo (num_frames : Nat) : Nat → List (List Char) → List FrameDescription
  | _, [] => []
  | i, line0 :: rest =>
    if pyStrip line0 ≠ [] ∧ i < num_frames then
      ⟨(if ':' ∈ pyStrip line0 then
          pyStrip ((pySplitOnce ':' (pyStrip line0)).getLastD [])
        else pyStrip line0),
        ((i : Int) + 1)⟩ :: structTakeGo num_frames (i + 1) rest
    else structTakeGo num_frames (i + 1) rest

/-- Fuel-driven worker for the padding `while` loop of
src/llm_service.py lines 141-146; each appended placeholder is numbered
`len(frames) + 1` at the moment of the append. -/
def padFramesAux (ph : List Char) (num_frames : Nat) :
    Nat → List FrameDescription → List FrameDescription
  | 0, frames => frames
  | fuel + 1, frames =>
    if frames.length < num_frames then
      padFramesAux ph num_frames fuel
        (frames ++ [⟨ph, ((frames.length : Int) + 1)⟩])
    else frames

/-- src/llm_service.py lines 141-146: pad with placeholders until
`num_frames` frames exist (the fuel `num_frames` is enough since every
step grows the list by one and the loop stops at `num_frames`). -/
def padFrames (ph : List Char) (num_frames : Nat) (frames : List FrameDescription) :
    List FrameDescription :=
  padFramesAux ph num_frames num_frames frames

/-- src/llm_service.py lines 108-148 with the completion reply given as
the `response` argument: the structured fallback — take, then pad. -/
def generate_structured_frame_sequence (prompt : List Char) (num_frames : Nat)
    (response : List Char) : List FrameDescription :=
  padFrames (placeholderDescription prompt) num_frames
    (structTakeGo num_frames 0 (pySplitChar '\n' (pyStrip response)))

/-- src/llm_service.py lines 67-106 with the two completion replies
given as arguments (`resp1` for the first pass, `resp2` for the
structured re-prompt): parse loosely; when fewer than `num_frames`
frames were accepted, discard them and run the structured fallback. -/
def generate_frame_sequence (prompt : List Char) (num_frames : Nat)
    (resp1 resp2 : List Char) : List FrameDescription :=
  let frames := generate_first_parse resp1
  if frames.length < num_frames then
    generate_structured_frame_sequence prompt num_frames resp2
  else frames

/-- The JSON body of a completion response, restricted to the shapes
src/llm_service.py lines 37-45 inspects: a list of objects each carrying
an optional `generated_text` string, a single such object, or anything
else. -/
inductive HFBody where
  | jlist : List (Option (List Char)) → HFBody
  | jdict : Option (List Char) → HFBody
  | other : HFBody
deriving DecidableEq

/-- The parts of an HTTP completion response that src/llm_service.py
lines 31-45 reads: status code, raw text, decoded JSON body. -/
structure HFResponse where
  status : Nat
  text : List Char
  body : HFBody
deriving DecidableEq

/-- src/llm_service.py lines 47-65: `_format_messages` — fold the
role-tagged messages into a single instruction-template prompt and strip
it. -/
def format_messages (messages : List (List Char × List Char)) : List Char :=
  pyStrip (messages.foldl (fun acc m =>
    if m.1 = "system".toList then
      acc ++ "<s>[INST] ".toList ++ m.2 ++ " [/INST]\n\n".toList
    else if m.1 = "user".toList then
      (if acc ≠ [] then acc ++ m.2 ++ " [/INST]\n\n".toList
       else acc ++ "<s>[INST] ".toList ++ m.2 ++ " [/INST]\n\n".toList)
    else if m.1 = "assistant".toList then acc ++ m.2 ++ "\n\n".toList
    else acc) [])

/-- src/llm_service.py lines 15-45 with the HTTP response given as an
argument: raise (`Except.error`) exactly on a non-200 status, with the
response text embedded in the message; otherwise extract
`generated_text` (default `""`), delete the prompt from it and strip. -/
def call_llm (messages : List (List Char × List Char)) (resp : HFResponse) :
    Except (List Char) (List Char) :=
  if resp.status ≠ 200 then
    Except.error ("Error from Hugging Face API: ".toList ++ resp.text)
  else
    match resp.body with
    | HFBody.jlist (g :: _) =>
      Except.ok (pyStrip (pyReplace (format_messages messages) [] (g.getD [])))
    | HFBody.jlist [] => Except.ok "Error: Unexpected response format".toList
    | HFBody.jdict g =>
      Except.ok (pyStrip (pyReplace (format_messages messages) [] (g.getD [])))
    | HFBody.other => Except.ok "Error: Unexpected response format".toList

/-- src/llm_service.py lines 156-165: the refine system message. -/
def refineSystemMsg : List Char :=
  ("You are a detail-oriented editor that refines video frame descriptions to ensure they maintain linguistic consistency, semantic coherence, and logical progression. Ensure each frame builds on the previous ones, uses consistent terminology, and creates a smooth visual narrative.\n\nYou MUST format your response exactly as follows, with one frame per line:\nFrame 1: [refined description of first frame]\nFrame 2: [refined description of second frame]\nAnd so on...").toList

/-- src/llm_service.py lines 167-172: the refine user message built from
the prompt and the rendered frames. -/
def refineUserMsg (frames : List FrameDescription) (prompt : List Char) : List Char :=
  "Refine these frame descriptions for the prompt: \"".toList ++ prompt ++
    "\"\n\n".toList ++ render_frames frames ++
    "\n\nMake sure the sequence flows naturally, maintains consistent terminology, and shows clear progression while preserving the original meaning of each frame.".toList

/-- src/llm_service.py lines 174-177: the refine message list. -/
def refine_messages (frames : List FrameDescription) (prompt : List Char) :
    List (List Char × List Char) :=
  [("system".toList, refineSystemMsg), ("user".toList, refineUserMsg frames prompt)]

/-- src/llm_service.py lines 150-220 end to end, with the HTTP response
of the single completion call given as an argument: any error of
`call_llm` propagates unchanged; on success the parse/reconcile logic
runs and cannot fail. -/
def refine_frame_sequence_full (frames : List FrameDescription)
    (prompt : List Char) (resp : HFResponse) :
    Except (List Char) (List FrameDescription) :=
  match call_llm (refine_messages frames prompt) resp with
  | Except.error e => Except.error e
  | Except.ok response => Except.ok (refine_pure frames response)

/-- The parts of a Stability text-to-image HTTP response that
src/image_service.py lines 70-83 reads: status code and the decoded
image artifacts (each artifact abstracted to its image payload). -/
structure StabResponse where
  status : Nat
  artifacts : List (List Char)
deriving DecidableEq

/-- src/image_service.py lines 26-87 with the HTTP response given as an
argument: `none` when the API key is falsy (absent or empty), when the
status is non-200, or when the body has no artifact; otherwise the first
artifact's image. -/
def generate_image (api_key : Option (List Char)) (resp : StabResponse) :
    Option (List Char) :=
  if api_key.getD [] = [] then none
  else if resp.status ≠ 200 then none
  else
    match resp.artifacts with
    | [] => none
    | a :: _ => some a

/-- src/image_service.py line 104: keep alphanumerics, space, `-`, `_`;
replace every other character by `_` (Python `str.isalnum` modelled on
the ASCII range). -/
def clean_filename (filename : List Char) : List Char :=
  filename.map (fun c =>
    if c.isAlphanum ∨ c = ' ' ∨ c = '-' ∨ c = '_' then c else '_')

/-- src/image_service.py lines 89-111 with the timestamp given as an
argument: `none` for a missing image, else the path
`output_dir/timestamp_cleanfilename.png`. -/
def save_image (output_dir timestamp : List Char) (image : Option (List Char))
    (filename : List Char) : Option (List Char) :=
  match image with
  | none => none
  | some _ =>
    some (output_dir ++ ['/'] ++ timestamp ++ ['_'] ++ clean_filename filename ++
      ".png".toList)

/-- src/image_service.py line 140: Python `f"{n:02d}"` — zero-pad to
width 2 after the sign. -/
def fmt02d (n : Int) : List Char :=
  if n < 0 then '-' :: natToChars n.natAbs
  else if (natToChars n.toNat).length < 2 then '0' :: natToChars n.toNat
  else natToChars n.toNat

/-- src/image_service.py line 140: the per-frame base filename. -/
def frame_filename (f : FrameDescription) : List Char :=
  "frame_".toList ++ fmt02d f.frame_number ++ ['_'] ++
    pyReplace [' '] ['_'] (f.description.take 30)

/-- src/image_service.py lines 127-151, loop body: `i` is the loop index
and `respOf i` the image-service response to the `i`-th request (the
calls are strictly sequential); a frame whose image generation or save
fails contributes nothing and the loop simply continues. -/
def genFrameImagesGo (api_key : Option (List Char)) (output_dir : List Char)
    (ts : Nat → List Char) (respOf : Nat → StabResponse) :
    Nat → List FrameDescription → List (List Char)
  | _, [] => []
  | i, f :: rest =>
    match generate_image api_key (respOf i) with
    | some img =>
      match save_image output_dir (ts i) (some img) (frame_filename f) with
      | some path =>
        if path ≠ [] then path :: genFrameImagesGo api_key output_dir ts respOf (i + 1) rest
        else genFrameImagesGo api_key output_dir ts respOf (i + 1) rest
      | none => genFrameImagesGo api_key output_dir ts respOf (i + 1) rest
    | none => genFrameImagesGo api_key output_dir ts respOf (i + 1) rest

/-- src/image_service.py lines 113-151: the image batch over a frame
list, returning the saved paths of the frames that succeeded. -/
def generate_frame_images (api_key : Option (List Char)) (output_dir : List Char)
    (ts : Nat → List Char) (respOf : Nat → StabResponse)
    (frames : List FrameDescription) : List (List Char) :=
  genFrameImagesGo api_key output_dir ts respOf 0 frames

/-- An object store for the heap-level model of refine: Python
`FrameDescription` objects are cells in the store, referenced by index.
Allocation appends; nothing in the modelled code ever writes an
existing cell. -/
def heapAlloc (st : List FrameDescription) (v : FrameDescription) :
    List FrameDescription × Nat :=
  (st ++ [v], st.length)

/-- Read of an object from the store (out-of-range reads, which the
modelled code never performs, yield a dummy). -/
def heapGet (st : List FrameDescription) (i : Nat) : FrameDescription :=
  st.getD i ⟨[], 0⟩

/-- Heap-level model of src/llm_service.py lines 182-199: each
qualifying reply line allocates a fresh `FrameDescription` object and
appends its reference to `refined_frames`. -/
def refineParseHeap (st : List FrameDescription) (response : List Char) :
    List FrameDescription × List Nat :=
  (pySplitChar '\n' (pyStrip response)).foldl
    (fun acc line =>
      match refineParseLine line with
      | some fd => ((heapAlloc acc.1 fd).1, acc.2 ++ [(heapAlloc acc.1 fd).2])
      | none => acc)
    (st, [])

/-- Heap-level model of src/llm_service.py line 204: the refined map
built by reading the parsed objects out of the store. -/
def refinedMapHeap (st0 : List FrameDescription) (response : List Char) :
    List (Int × List Char) :=
  (refineParseHeap st0 response).2.foldl
    (fun m i => dictInsert m (heapGet (refineParseHeap st0 response).1 i).frame_number
      (heapGet (refineParseHeap st0 response).1 i).description) []

/-- Heap-level model of src/llm_service.py lines 182-220: the input is a
list of references `frameIds` into the store; the reconciliation branch
either allocates a fresh object (substitution) or appends the original
reference unchanged (`result.append(original)`). -/
def refine_pure_heap (st0 : List FrameDescription) (frameIds : List Nat)
    (response : List Char) : List FrameDescription × List Nat :=
  if (refineParseHeap st0 response).2.length ≠ frameIds.length then
    frameIds.foldl
      (fun acc oid =>
        match dictGet (refinedMapHeap st0 response)
            (heapGet (refineParseHeap st0 response).1 oid).frame_number with
        | some d =>
          ((heapAlloc acc.1
              ⟨d, (heapGet (refineParseHeap st0 response).1 oid).frame_number⟩).1,
            acc.2 ++ [(heapAlloc acc.1
              ⟨d, (heapGet (refineParseHeap st0 response).1 oid).frame_number⟩).2])
        | none => (acc.1, acc.2 ++ [oid]))
      ((refineParseHeap st0 response).1, [])
  else refineParseHeap st0 response

/-- Spec-side predicate (from the spec's wording, for comparison with the
source-derived `refineParseLine`): a refine-reply line qualifies iff,
after stripping, it is non-empty, starts with the literal `"Frame"`,
contains a `':'`, and the segment before the first `':'` parses as an
integer after deleting the word `"Frame"` and stripping. -/
def refineLineQualifiesSpec (line0 : List Char) : Prop :=
  pyStrip line0 ≠ [] ∧
  "Frame".toList.isPrefixOf (pyStrip line0) = true ∧
  ':' ∈ pyStrip line0 ∧
  (pyParseInt (pyStrip (pyReplace "Frame".toList []
    ((pyStrip line0).takeWhile (fun c => c ≠ ':'))))).isSome = true

/-- Spec-side description of refine reconciliation (from the spec's
wording, for comparison with the source-derived `refine_pure`): the
description of the LAST parsed frame carrying the number `k`, if any. -/
def lastParsedDescriptionSpec (l : List FrameDescription) (k : Int) :
    Option (List Char) :=
  ((l.reverse.find? (fun f => f.frame_number = k)).map (fun f => f.description))

/-- Spec-side closed form of the structured taking loop (for comparison
with the source-derived `structTakeGo`): a non-blank line at 0-based
index `i < num_frames` yields a frame numbered `i + 1`. -/
def structTakeSpec (num_frames : Nat) (lines : List (List Char)) :
    List FrameDescription :=
  (List.enumFrom 0 lines).filterMap (fun p =>
    if pyStrip p.2 ≠ [] ∧ p.1 < num_frames then
      some ⟨(if ':' ∈ pyStrip p.2 then
               pyStrip ((pySplitOnce ':' (pyStrip p.2)).getLastD [])
             else pyStrip p.2),
            ((p.1 : Int) + 1)⟩
    else none)

/-- Spec-side closed form of the padding loop (for comparison with the
source-derived `padFrames`): append `num_frames - count` placeholders
numbered `count + 1, count + 2, ...`. -/
def padFramesSpec (ph : List Char) (num_frames : Nat)
    (frames : List FrameDescription) : List FrameDescription :=
  frames ++ (List.range (num_frames - frames.length)).map
    (fun j => ⟨ph, ((frames.length : Int) + 1 + (j : Int))⟩)

/-- Spec-side closed form of the image batch (for comparison with the
source-derived `generate_frame_images`): each frame contributes exactly
its own save path, and only when its own image generation succeeded. -/
def frameImagesSpec (api_key : Option (List Char)) (output_dir : List Char)
    (ts : Nat → List Char) (respOf : Nat → StabResponse)
    (frames : List FrameDescription) : List (List Char) :=
  (List.enumFrom 0 frames).filterMap (fun p =>
    (generate_image api_key (respOf p.1)).bind (fun img =>
      save_image output_dir (ts p.1) (some img) (frame_filename p.2)))



/-! ### Lemmas about the Python string primitive models -/

theorem dropWhile_eq_self_of_all (p : Char → Bool) (s : List Char)
    (h : ∀ x ∈ s, p x = false) : s.dropWhile p = s := by
  cases s with
  | nil => rfl
  | cons a t => simp [List.dropWhile_cons, h a (List.mem_cons_self a t)]

theorem pyStrip_eq_self_of_all (s : List Char)
    (h : ∀ x ∈ s, isPySpace x = false) : pyStrip s = s := by
  unfold pyStrip
  rw [dropWhile_eq_self_of_all _ _ h]
  rw [dropWhile_eq_self_of_all _ _ (fun x hx => h x (List.mem_reverse.mp hx))]
  exact List.reverse_reverse s

theorem length_dropWhile_le (p : Char → Bool) (s : List Char) :
    (s.dropWhile p).length ≤ s.length :=
  (List.dropWhile_suffix p).length_le

theorem dropWhile_left_of_pyStrip_eq (s : List Char) (h : pyStrip s = s) :
    s.dropWhile isPySpace = s := by
  have h2 : (pyStrip s).length ≤ (s.dropWhile isPySpace).length := by
    unfold pyStrip
    calc (((s.dropWhile isPySpace).reverse.dropWhile isPySpace).reverse).length
        = ((s.dropWhile isPySpace).reverse.dropWhile isPySpace).length := by
          rw [List.length_reverse]
      _ ≤ (s.dropWhile isPySpace).reverse.length := length_dropWhile_le _ _
      _ = (s.dropWhile isPySpace).length := by rw [List.length_reverse]
  have h3 : (pyStrip s).length = s.length := by rw [h]
  have h4 : (s.dropWhile isPySpace).length = s.length :=
    Nat.le_antisymm (length_dropWhile_le _ _) (by omega)
  exact (List.dropWhile_suffix _).eq_of_length h4

theorem dropWhile_reverse_of_pyStrip_eq (s : List Char) (h : pyStrip s = s) :
    s.reverse.dropWhile isPySpace = s.reverse := by
  have hd := dropWhile_left_of_pyStrip_eq s h
  have h' := h
  unfold pyStrip at h'
  rw [hd] at h'
  have := congrArg List.reverse h'
  rwa [List.reverse_reverse] at this

theorem head_not_space_of_pyStrip_eq (a : Char) (t : List Char)
    (h : pyStrip (a :: t) = a :: t) : isPySpace a = false := by
  have hd := dropWhile_left_of_pyStrip_eq _ h
  cases hb : isPySpace a with
  | false => rfl
  | true =>
    rw [List.dropWhile_cons, hb] at hd
    simp only [if_true] at hd
    have := length_dropWhile_le isPySpace t
    have := congrArg List.length hd
    simp at this
    omega

theorem pyStrip_eq_self_of_ends (s : List Char)
    (h1 : ∀ a, s.head? = some a → isPySpace a = false)
    (h2 : ∀ a, s.getLast? = some a → isPySpace a = false) : pyStrip s = s := by
  cases hs : s with
  | nil => rfl
  | cons a t =>
    have ha : isPySpace a = false := h1 a (by rw [hs]; rfl)
    unfold pyStrip
    rw [List.dropWhile_cons, ha]
    simp only [Bool.false_eq_true, if_false]
    cases hr : (a :: t).reverse with
    | nil => simp at hr
    | cons b r =>
      have hb : isPySpace b = false := by
        apply h2
        rw [hs]
        rw [← List.head?_reverse, hr]
        rfl
      have hrev : (b :: r).reverse = a :: t := by
        have hgg := congrArg List.reverse hr
        rw [List.reverse_reverse] at hgg
        exact hgg.symm
      rw [List.dropWhile_cons, hb]
      simp only [Bool.false_eq_true, if_false]
      exact hrev

theorem pyStrip_cons_space (s : List Char) (h : pyStrip s = s) :
    pyStrip (' ' :: s) = s := by
  unfold pyStrip
  rw [List.dropWhile_cons]
  have : isPySpace ' ' = true := by decide
  rw [this]
  simp only [if_true]
  rw [dropWhile_left_of_pyStrip_eq s h, dropWhile_reverse_of_pyStrip_eq s h,
    List.reverse_reverse]

theorem pySplitChar_cons (sep x : Char) (xs : List Char) :
    pySplitChar sep (x :: xs) =
      match pySplitChar sep xs with
      | [] => [[]]
      | h :: t => if x = sep then [] :: h :: t else (x :: h) :: t := rfl

theorem pySplitOnce_cons (sep x : Char) (xs : List Char) :
    pySplitOnce sep (x :: xs) =
      if x = sep then [[], xs]
      else
        match pySplitOnce sep xs with
        | [] => [[x]]
        | h :: t => (x :: h) :: t := rfl

theorem pySplitChar_ne_nil (sep : Char) (s : List Char) : pySplitChar sep s ≠ [] := by
  cases s with
  | nil => simp [pySplitChar]
  | cons x xs =>
    simp only [pySplitChar]
    cases hr : pySplitChar sep xs with
    | nil => simp
    | cons h t => by_cases hx : x = sep <;> simp [hx]

theorem pySplitChar_no_sep (sep : Char) (l : List Char) (h : sep ∉ l) :
    pySplitChar sep l = [l] := by
  induction l with
  | nil => rfl
  | cons x xs ih =>
    have hx : x ≠ sep := fun e => h (e ▸ List.mem_cons_self x xs)
    have hxs : sep ∉ xs := fun m => h (List.mem_cons_of_mem _ m)
    simp only [pySplitChar, ih hxs]
    simp [hx]

theorem pySplitChar_append_sep (sep : Char) (l t : List Char) (h : sep ∉ l) :
    pySplitChar sep (l ++ sep :: t) = l :: pySplitChar sep t := by
  induction l with
  | nil =>
    simp only [List.nil_append, pySplitChar]
    cases hr : pySplitChar sep t with
    | nil => exact absurd hr (pySplitChar_ne_nil sep t)
    | cons hh tt => simp
  | cons x xs ih =>
    have hx : x ≠ sep := fun e => h (e ▸ List.mem_cons_self x xs)
    have hxs : sep ∉ xs := fun m => h (List.mem_cons_of_mem _ m)
    rw [List.cons_append, pySplitChar_cons, ih hxs]
    simp [hx]

theorem pyJoin_cons_cons (sep : Char) (x y : List Char) (xs : List (List Char)) :
    pyJoin [sep] (x :: y :: xs) = x ++ sep :: pyJoin [sep] (y :: xs) := by
  simp [pyJoin]

theorem pySplitChar_pyJoin (sep : Char) (ls : List (List Char)) (hne : ls ≠ [])
    (h : ∀ l ∈ ls, sep ∉ l) : pySplitChar sep (pyJoin [sep] ls) = ls := by
  induction ls with
  | nil => exact absurd rfl hne
  | cons x xs ih =>
    cases xs with
    | nil => exact pySplitChar_no_sep sep x (h x (List.mem_cons_self x []))
    | cons y ys =>
      rw [pyJoin_cons_cons, pySplitChar_append_sep sep x _ (h x (List.mem_cons_self x _)),
        ih (by simp) (fun l hl => h l (List.mem_cons_of_mem _ hl))]

theorem pySplitOnce_no_sep (sep : Char) (l : List Char) (h : sep ∉ l) :
    pySplitOnce sep l = [l] := by
  induction l with
  | nil => rfl
  | cons x xs ih =>
    have hx : x ≠ sep := fun e => h (e ▸ List.mem_cons_self x xs)
    have hxs : sep ∉ xs := fun m => h (List.mem_cons_of_mem _ m)
    simp only [pySplitOnce, ih hxs]
    simp [hx]

theorem pySplitOnce_append (sep : Char) (l t : List Char) (h : sep ∉ l) :
    pySplitOnce sep (l ++ sep :: t) = [l, t] := by
  induction l with
  | nil => simp [pySplitOnce]
  | cons x xs ih =>
    have hx : x ≠ sep := fun e => h (e ▸ List.mem_cons_self x xs)
    have hxs : sep ∉ xs := fun m => h (List.mem_cons_of_mem _ m)
    rw [List.cons_append, pySplitOnce_cons, ih hxs]
    simp [hx]

theorem pyReplaceAux_not_mem_head (p : Char) (pt repl : List Char) (fuel : Nat)
    (s : List Char) (h : p ∉ s) : pyReplaceAux (p :: pt) repl fuel s = s := by
  induction fuel generalizing s with
  | zero => rfl
  | succ f ih =>
    cases s with
    | nil => rfl
    | cons x xs =>
      have hx : x ≠ p := fun e => h (e ▸ List.mem_cons_self x xs)
      have hpre : (p :: pt).isPrefixOf (x :: xs) = false := by
        simp only [List.isPrefixOf, Bool.and_eq_false_iff]
        left
        simp [beq_iff_eq]
        exact fun e => hx e.symm
      simp only [pyReplaceAux, hpre]
      simp only [Bool.false_eq_true, if_false]
      rw [ih xs (fun m => h (List.mem_cons_of_mem _ m))]

theorem pyReplace_not_mem_head (p : Char) (pt repl s : List Char) (h : p ∉ s) :
    pyReplace (p :: pt) repl s = s := by
  unfold pyReplace
  rw [if_neg (by simp)]
  exact pyReplaceAux_not_mem_head p pt repl _ s h

theorem pyReplaceAux_cons (pat repl : List Char) (fuel : Nat) (x : Char) (xs : List Char) :
    pyReplaceAux pat repl (fuel + 1) (x :: xs) =
      if pat.isPrefixOf (x :: xs) then
        repl ++ pyReplaceAux pat repl fuel ((x :: xs).drop pat.length)
      else
        x :: pyReplaceAux pat repl fuel xs := rfl

theorem pyReplace_del_front (p : Char) (pt rest : List Char) (h : p ∉ rest) :
    pyReplace (p :: pt) [] ((p :: pt) ++ rest) = rest := by
  unfold pyReplace
  rw [if_neg (by simp)]
  have hpre : (p :: pt).isPrefixOf ((p :: pt) ++ rest) = true := by
    rw [List.isPrefixOf_iff_prefix]
    exact List.prefix_append _ _
  have hlen : ((p :: pt) ++ rest).length = (pt ++ rest).length + 1 := by
    simp
  rw [hlen]
  rw [show ((p :: pt) ++ rest) = p :: (pt ++ rest) from rfl] at hpre ⊢
  rw [pyReplaceAux_cons]
  rw [show (p :: (pt ++ rest)) = ((p :: pt) ++ rest) from rfl] at hpre ⊢
  rw [hpre]
  simp only [if_true, List.nil_append]
  rw [List.drop_left]
  exact pyReplaceAux_not_mem_head p pt [] _ rest h

theorem digitChar_isDigit (d : Nat) (h : d < 10) : (digitChar d).isDigit = true := by
  interval_cases d <;> decide

theorem digitChar_val (d : Nat) (h : d < 10) : (digitChar d).toNat - 48 = d := by
  interval_cases d <;> decide

theorem natToCharsAux_all_digit (fuel n : Nat) :
    ∀ c ∈ natToCharsAux fuel n, c.isDigit = true := by
  induction fuel generalizing n with
  | zero => simp [natToCharsAux]
  | succ f ih =>
    by_cases h : n < 10
    · simp only [natToCharsAux, if_pos h]
      intro c hc
      rw [List.mem_singleton.mp hc]
      exact digitChar_isDigit n h
    · simp only [natToCharsAux, if_neg h]
      intro c hc
      rcases List.mem_append.mp hc with h1 | h2
      · exact ih (n / 10) c h1
      · rw [List.mem_singleton.mp h2]
        exact digitChar_isDigit _ (Nat.mod_lt _ (by omega))

theorem natToChars_all_digit (n : Nat) : ∀ c ∈ natToChars n, c.isDigit = true :=
  natToCharsAux_all_digit (n + 1) n

theorem natToChars_ne_nil (n : Nat) : natToChars n ≠ [] := by
  unfold natToChars natToCharsAux
  by_cases h : n < 10 <;> simp [h]

theorem digitsToNat_append_digit (l : List Char) (c : Char) :
    digitsToNat (l ++ [c]) = digitsToNat l * 10 + (c.toNat - 48) := by
  simp [digitsToNat, List.foldl_append]

theorem digitsToNat_natToCharsAux (fuel n : Nat) (h : n < 10 ^ fuel) :
    digitsToNat (natToCharsAux fuel n) = n := by
  induction fuel generalizing n with
  | zero =>
    simp only [pow_zero, Nat.lt_one_iff] at h
    simp [natToCharsAux, digitsToNat, h]
  | succ f ih =>
    by_cases h10 : n < 10
    · simp only [natToCharsAux, if_pos h10]
      show digitsToNat ([] ++ [digitChar n]) = n
      rw [digitsToNat_append_digit, digitChar_val n h10]
      simp [digitsToNat]
    · simp only [natToCharsAux, if_neg h10]
      rw [digitsToNat_append_digit, ih (n / 10) ?_, digitChar_val _ (Nat.mod_lt _ (by omega))]
      · omega
      · rw [Nat.div_lt_iff_lt_mul (by omega)]
        calc n < 10 ^ (f + 1) := h
          _ = 10 ^ f * 10 := by ring

theorem digitsToNat_natToChars (n : Nat) : digitsToNat (natToChars n) = n := by
  apply digitsToNat_natToCharsAux
  calc n < 2 ^ n := Nat.lt_two_pow n
    _ ≤ 10 ^ n := Nat.pow_le_pow_left (by omega) n
    _ ≤ 10 ^ (n + 1) := Nat.pow_le_pow_right (by omega) (by omega)

theorem parseNatDigits_natToChars (n : Nat) : parseNatDigits (natToChars n) = some n := by
  unfold parseNatDigits
  rw [if_neg (natToChars_ne_nil n)]
  rw [if_pos (List.all_eq_true.mpr (fun c hc => natToChars_all_digit n c hc))]
  rw [digitsToNat_natToChars]

theorem isPySpace_eq_false_of_isDigit (c : Char) (h : c.isDigit = true) :
    isPySpace c = false := by
  by_contra hc
  have hc' : isPySpace c = true := by
    cases hb : isPySpace c with
    | false => exact absurd hb hc
    | true => rfl
  simp only [isPySpace, Bool.or_eq_true, decide_eq_true_eq] at hc'
  rcases hc' with ((((h1 | h1) | h1) | h1) | h1) | h1 <;>
    (subst h1; exact absurd h (by decide))

theorem pyStrip_all_digit (l : List Char) (h : ∀ c ∈ l, c.isDigit = true) :
    pyStrip l = l :=
  pyStrip_eq_self_of_all l (fun c hc => isPySpace_eq_false_of_isDigit c (h c hc))

theorem pyParseInt_natToChars (n : Nat) : pyParseInt (natToChars n) = some (n : Int) := by
  have hs : pyStrip (natToChars n) = natToChars n :=
    pyStrip_all_digit _ (natToChars_all_digit n)
  unfold pyParseInt
  simp only [hs]
  rw [if_neg (natToChars_ne_nil n)]
  cases hnc : natToChars n with
  | nil => exact absurd hnc (natToChars_ne_nil n)
  | cons c rest =>
    have hcd : c.isDigit = true :=
      natToChars_all_digit n c (by rw [hnc]; exact List.mem_cons_self c rest)
    have hc1 : c ≠ '-' := by intro e; rw [e] at hcd; exact absurd hcd (by decide)
    have hc2 : c ≠ '+' := by intro e; rw [e] at hcd; exact absurd hcd (by decide)
    rw [List.headD_cons, if_neg hc1, if_neg hc2, ← hnc, parseNatDigits_natToChars n]
    rfl

theorem pyParseInt_intToChars (k : Int) : pyParseInt (intToChars k) = some k := by
  by_cases hk : k < 0
  · unfold intToChars
    rw [if_pos hk]
    have hs : pyStrip ('-' :: natToChars k.natAbs) = '-' :: natToChars k.natAbs := by
      apply pyStrip_eq_self_of_all
      intro x hx
      rcases List.mem_cons.mp hx with h1 | h2
      · rw [h1]; decide
      · exact isPySpace_eq_false_of_isDigit _ (natToChars_all_digit _ _ h2)
    unfold pyParseInt
    simp only [hs, List.headD_cons, List.tail_cons]
    rw [if_pos trivial, parseNatDigits_natToChars]
    show some (-(k.natAbs : Int)) = some k
    congr 1
    omega
  · unfold intToChars
    rw [if_neg hk, pyParseInt_natToChars]
    congr 1
    omega
theorem dictGet_nil (k : Int) : dictGet [] k = none := rfl

theorem dictGet_cons (a : Int × List Char) (m : List (Int × List Char)) (k : Int) :
    dictGet (a :: m) k = if a.1 = k then some a.2 else dictGet m k := by
  unfold dictGet
  by_cases h : a.1 = k
  · rw [List.find?_cons_of_pos _ (by simp [h])]
    simp [h]
  · rw [List.find?_cons_of_neg _ (by simp [h])]
    simp [h]

theorem dictGet_map_overwrite (m : List (Int × List Char)) (k k' : Int) (v : List Char)
    (hne : k' ≠ k) :
    dictGet (m.map (fun p => if p.1 = k then (k, v) else p)) k' = dictGet m k' := by
  induction m with
  | nil => rfl
  | cons a t ih =>
    simp only [List.map_cons]
    by_cases ha : a.1 = k
    · rw [if_pos ha, dictGet_cons, dictGet_cons, if_neg (by simpa using fun e => hne e.symm), ih]
      rw [if_neg (fun e => hne (by rw [← e, ha]))]
    · rw [if_neg ha, dictGet_cons, dictGet_cons, ih]

theorem dictGet_map_hit (m : List (Int × List Char)) (k : Int) (v : List Char)
    (h : m.any (fun p => p.1 = k) = true) :
    dictGet (m.map (fun p => if p.1 = k then (k, v) else p)) k = some v := by
  induction m with
  | nil => simp at h
  | cons a t ih =>
    simp only [List.map_cons]
    by_cases ha : a.1 = k
    · rw [if_pos ha, dictGet_cons]
      simp
    · rw [if_neg ha, dictGet_cons, if_neg ha]
      apply ih
      simp only [List.any_cons, Bool.or_eq_true, decide_eq_true_eq] at h
      rcases h with h | h
      · exact absurd h ha
      · simpa using h

theorem dictGet_append_single (m : List (Int × List Char)) (k k' : Int) (v : List Char) :
    dictGet (m ++ [(k, v)]) k' =
      match dictGet m k' with
      | some w => some w
      | none => if k = k' then some v else none := by
  induction m with
  | nil =>
    rw [List.nil_append, dictGet_cons]
    by_cases h : k = k' <;> simp [h, dictGet_nil]
  | cons a t ih =>
    rw [List.cons_append, dictGet_cons, dictGet_cons, ih]
    by_cases h : a.1 = k' <;> simp [h]

theorem dictGet_dictInsert (m : List (Int × List Char)) (k k' : Int) (v : List Char) :
    dictGet (dictInsert m k v) k' = if k' = k then some v else dictGet m k' := by
  unfold dictInsert
  by_cases hany : m.any (fun p => p.1 = k) = true
  · rw [if_pos hany]
    by_cases hk : k' = k
    · rw [if_pos hk, hk, dictGet_map_hit m k v hany]
    · rw [if_neg hk, dictGet_map_overwrite m k k' v hk]
  · rw [if_neg hany]
    rw [dictGet_append_single]
    by_cases hk : k' = k
    · subst hk
      have hnone : dictGet m k' = none := by
        unfold dictGet
        have hf : m.find? (fun p => decide (p.1 = k')) = none := by
          apply List.find?_eq_none.mpr
          intro p hp
          simp only [decide_eq_true_eq]
          exact fun e => hany (List.any_eq_true.mpr ⟨p, hp, by simp [e]⟩)
        rw [hf]
        rfl
      rw [hnone]
    · rw [if_neg hk]
      cases hd : dictGet m k' with
      | some w => rfl
      | none =>
        have hne : ¬ k = k' := fun e => hk e.symm
        simp [hne]

theorem dictGet_buildRefinedMap_go (l : List FrameDescription) (k : Int) :
    dictGet (buildRefinedMap l) k = lastParsedDescriptionSpec l k := by
  induction l using List.reverseRecOn with
  | nil => rfl
  | append_singleton t f ih =>
    unfold buildRefinedMap at ih ⊢
    rw [List.foldl_append, List.foldl_cons, List.foldl_nil, dictGet_dictInsert]
    unfold lastParsedDescriptionSpec at ih ⊢
    rw [List.reverse_append, List.reverse_singleton, List.singleton_append,
      List.find?_cons]
    by_cases hk : f.frame_number = k
    · rw [if_pos hk.symm]
      have hd : (decide (f.frame_number = k)) = true := by simp [hk]
      rw [hd]
      rfl
    · rw [if_neg (fun e => hk e.symm)]
      have hd : (decide (f.frame_number = k)) = false := by simp [hk]
      rw [hd]
      exact ih

theorem head_false_of_dropWhile_cons_eq (p : Char → Bool) (a : Char) (t : List Char)
    (h : List.dropWhile p (a :: t) = a :: t) : p a = false := by
  cases hb : p a with
  | false => rfl
  | true =>
    rw [List.dropWhile_cons, hb] at h
    simp only [if_true] at h
    have h1 := length_dropWhile_le p t
    have h2 := congrArg List.length h
    simp at h2
    omega

theorem head_not_space_of_pyStrip_self (s : List Char) (a : Char)
    (h : pyStrip s = s) (ha : s.head? = some a) : isPySpace a = false := by
  have hd := dropWhile_left_of_pyStrip_eq s h
  cases s with
  | nil => cases ha
  | cons b t =>
    have hba : b = a := by simpa using ha
    subst hba
    exact head_false_of_dropWhile_cons_eq _ _ _ hd

theorem getLast_not_space_of_pyStrip_self (s : List Char) (a : Char)
    (h : pyStrip s = s) (ha : s.getLast? = some a) : isPySpace a = false := by
  have hr := dropWhile_reverse_of_pyStrip_eq s h
  rw [← List.head?_reverse] at ha
  cases hrev : s.reverse with
  | nil => rw [hrev] at ha; cases ha
  | cons b r =>
    rw [hrev] at ha hr
    have hba : b = a := by simpa using ha
    subst hba
    exact head_false_of_dropWhile_cons_eq _ _ _ hr

theorem intToChars_mem (k : Int) (c : Char) (hc : c ∈ intToChars k) :
    c.isDigit = true ∨ c = '-' := by
  unfold intToChars at hc
  by_cases hk : k < 0
  · rw [if_pos hk] at hc
    rcases List.mem_cons.mp hc with h1 | h2
    · exact Or.inr h1
    · exact Or.inl (natToChars_all_digit _ _ h2)
  · rw [if_neg hk] at hc
    exact Or.inl (natToChars_all_digit _ _ hc)

theorem intToChars_not_space (k : Int) (c : Char) (hc : c ∈ intToChars k) :
    isPySpace c = false := by
  rcases intToChars_mem k c hc with h | h
  · exact isPySpace_eq_false_of_isDigit c h
  · rw [h]; decide

theorem pyStrip_intToChars (k : Int) : pyStrip (intToChars k) = intToChars k :=
  pyStrip_eq_self_of_all _ (intToChars_not_space k)

theorem colon_not_mem_intToChars (k : Int) : ':' ∉ intToChars k := by
  intro hmem
  rcases intToChars_mem k ':' hmem with h | h
  · exact absurd h (by decide)
  · cases h

theorem newline_not_mem_intToChars (k : Int) : '\n' ∉ intToChars k := by
  intro hmem
  rcases intToChars_mem k '\n' hmem with h | h
  · exact absurd h (by decide)
  · cases h

theorem big_f_not_mem_intToChars (k : Int) : 'F' ∉ intToChars k := by
  intro hmem
  rcases intToChars_mem k 'F' hmem with h | h
  · exact absurd h (by decide)
  · cases h

theorem pyJoin_head? (c : Char) (x : List Char) (xs : List (List Char)) (hx : x ≠ []) :
    (pyJoin [c] (x :: xs)).head? = x.head? := by
  cases xs with
  | nil => rfl
  | cons y ys =>
    rw [pyJoin_cons_cons]
    exact List.head?_append_of_ne_nil _ hx

theorem pyJoin_ne_nil_of_getLast (c : Char) (ls : List (List Char)) (x : List Char)
    (hx : ls.getLast? = some x) (hxne : x ≠ []) : pyJoin [c] ls ≠ [] := by
  cases ls with
  | nil => cases hx
  | cons a t =>
    cases t with
    | nil =>
      have : a = x := by simpa using hx
      subst this
      simpa [pyJoin] using hxne
    | cons b u =>
      rw [pyJoin_cons_cons]
      intro he
      have : (a ++ c :: pyJoin [c] (b :: u)).length = 0 := by rw [he]; rfl
      simp at this

theorem pyJoin_getLast? (c : Char) (ls : List (List Char)) (x : List Char)
    (hx : ls.getLast? = some x) (hxne : x ≠ []) :
    (pyJoin [c] ls).getLast? = x.getLast? := by
  induction ls with
  | nil => cases hx
  | cons a t ih =>
    cases t with
    | nil =>
      have : a = x := by simpa using hx
      subst this
      rfl
    | cons b u =>
      have hx' : (b :: u).getLast? = some x := by
        rw [← hx, List.getLast?_cons_cons]
      have hne : pyJoin [c] (b :: u) ≠ [] := pyJoin_ne_nil_of_getLast c _ x hx' hxne
      rw [pyJoin_cons_cons]
      rw [List.getLast?_append_of_ne_nil _ (by simp)]
      have : (c :: pyJoin [c] (b :: u)) = [c] ++ pyJoin [c] (b :: u) := rfl
      rw [this, List.getLast?_append_of_ne_nil _ hne]
      exact ih hx'

theorem render_line_eq (f : FrameDescription) :
    render_line f =
      ("Frame ".toList ++ intToChars f.frame_number) ++
        (':' :: (' ' :: f.description)) := by
  unfold render_line
  simp [List.append_assoc]

theorem render_line_frame_form (f : FrameDescription) :
    render_line f =
      "Frame".toList ++
        (' ' :: (intToChars f.frame_number ++ (':' :: (' ' :: f.description)))) := by
  rw [render_line_eq]
  have h : "Frame ".toList = "Frame".toList ++ [' '] := by decide
  rw [h, List.append_assoc, List.append_assoc]
  rfl

theorem render_line_ne_nil (f : FrameDescription) : render_line f ≠ [] := by
  rw [render_line_frame_form]
  simp

theorem render_line_head? (f : FrameDescription) :
    (render_line f).head? = some 'F' := by
  rw [render_line_frame_form]
  rfl

theorem render_line_getLast? (f : FrameDescription) (hne : f.description ≠ []) :
    (render_line f).getLast? = f.description.getLast? := by
  rw [render_line_eq]
  rw [List.getLast?_append_of_ne_nil _ (by simp)]
  have h1 : (':' :: ' ' :: f.description) = [':', ' '] ++ f.description := rfl
  rw [h1, List.getLast?_append_of_ne_nil _ hne]

theorem render_line_strip (f : FrameDescription) (hne : f.description ≠ [])
    (hs : pyStrip f.description = f.description) :
    pyStrip (render_line f) = render_line f := by
  apply pyStrip_eq_self_of_ends
  · intro a ha
    rw [render_line_head?] at ha
    rw [← Option.some.inj ha]
    decide
  · intro a ha
    rw [render_line_getLast? f hne] at ha
    exact getLast_not_space_of_pyStrip_self _ _ hs ha

theorem render_line_isPrefixOf (f : FrameDescription) :
    "Frame".toList.isPrefixOf (render_line f) = true := by
  rw [List.isPrefixOf_iff_prefix, render_line_frame_form]
  exact List.prefix_append _ _

theorem render_line_splitOnce (f : FrameDescription) :
    pySplitOnce ':' (render_line f) =
      ["Frame ".toList ++ intToChars f.frame_number, ' ' :: f.description] := by
  rw [render_line_eq]
  apply pySplitOnce_append
  intro hmem
  rcases List.mem_append.mp hmem with h | h
  · revert h
    decide
  · exact colon_not_mem_intToChars _ h

theorem render_line_replace (f : FrameDescription) :
    pyReplace "Frame".toList [] ("Frame ".toList ++ intToChars f.frame_number) =
      ' ' :: intToChars f.frame_number := by
  have hform : "Frame ".toList ++ intToChars f.frame_number =
      "Frame".toList ++ (' ' :: intToChars f.frame_number) := by
    have h : "Frame ".toList = "Frame".toList ++ [' '] := by decide
    rw [h, List.append_assoc]
    rfl
  rw [hform]
  have h5 : "Frame".toList = 'F' :: "rame".toList := by decide
  rw [h5]
  apply pyReplace_del_front
  intro hmem
  rcases List.mem_cons.mp hmem with h | h
  · exact absurd h (by decide)
  · exact big_f_not_mem_intToChars _ h

theorem refineParseLine_render_line (f : FrameDescription)
    (hne : f.description ≠ []) (hs : pyStrip f.description = f.description) :
    refineParseLine (render_line f) = some f := by
  unfold refineParseLine
  rw [render_line_strip f hne hs]
  rw [if_neg (render_line_ne_nil f)]
  rw [if_pos (render_line_isPrefixOf f)]
  rw [render_line_splitOnce f]
  show (match pyParseInt (pyStrip (pyReplace "Frame".toList []
          ("Frame ".toList ++ intToChars f.frame_number))) with
        | some n => some (⟨pyStrip (' ' :: f.description), n⟩ : FrameDescription)
        | none => none) = some f
  rw [render_line_replace f]
  rw [pyStrip_cons_space _ (pyStrip_intToChars f.frame_number)]
  rw [pyParseInt_intToChars]
  show some (⟨pyStrip (' ' :: f.description), f.frame_number⟩ : FrameDescription) = some f
  rw [pyStrip_cons_space _ hs]

theorem newline_not_mem_render_line (f : FrameDescription)
    (hnl : '\n' ∉ f.description) : '\n' ∉ render_line f := by
  rw [render_line_eq]
  intro hmem
  rcases List.mem_append.mp hmem with h | h
  · rcases List.mem_append.mp h with h1 | h1
    · revert h1
      decide
    · exact newline_not_mem_intToChars _ h1
  · rcases List.mem_cons.mp h with h1 | h1
    · exact absurd h1 (by decide)
    · rcases List.mem_cons.mp h1 with h2 | h2
      · exact absurd h2 (by decide)
      · exact hnl h2

theorem filterMap_refineParseLine_render (l : List FrameDescription)
    (h : ∀ f ∈ l, f.description ≠ [] ∧ pyStrip f.description = f.description) :
    (l.map render_line).filterMap refineParseLine = l := by
  induction l with
  | nil => rfl
  | cons f t ih =>
    rw [List.map_cons, List.filterMap_cons]
    rw [refineParseLine_render_line f (h f (List.mem_cons_self f t)).1
      (h f (List.mem_cons_self f t)).2]
    rw [ih (fun g hg => h g (List.mem_cons_of_mem _ hg))]

theorem refineParse_render_frames (frames : List FrameDescription)
    (h : ∀ f ∈ frames, f.description ≠ [] ∧ pyStrip f.description = f.description ∧
      '\n' ∉ f.description) :
    refineParse (render_frames frames) = frames := by
  cases hfr : frames with
  | nil => rfl
  | cons f0 rest =>
    unfold refineParse render_frames
    have hmapne : (f0 :: rest).map render_line ≠ [] := by simp
    have hlast :
        ((f0 :: rest).map render_line).getLast? =
          some (render_line ((f0 :: rest).getLast (by simp))) := by
      rw [List.getLast?_map, List.getLast?_eq_getLast _ (by simp)]
      rfl
    have hlastmem : (f0 :: rest).getLast (by simp) ∈ frames := by
      rw [hfr]
      exact List.getLast_mem _
    have hlastf := h _ hlastmem
    have hstrip : pyStrip (pyJoin ['\n'] ((f0 :: rest).map render_line)) =
        pyJoin ['\n'] ((f0 :: rest).map render_line) := by
      apply pyStrip_eq_self_of_ends
      · intro a ha
        rw [List.map_cons, pyJoin_head? '\n' _ _ (render_line_ne_nil f0),
          render_line_head?] at ha
        rw [← Option.some.inj ha]
        decide
      · intro a ha
        rw [pyJoin_getLast? '\n' _ _ hlast (render_line_ne_nil _),
          render_line_getLast? _ hlastf.1] at ha
        exact getLast_not_space_of_pyStrip_self _ _ hlastf.2.1 ha
    rw [hstrip]
    rw [pySplitChar_pyJoin '\n' _ hmapne ?hnl]
    case hnl =>
      intro l hl
      rcases List.mem_map.mp hl with ⟨g, hg, rfl⟩
      exact newline_not_mem_render_line g (h g (hfr ▸ hg)).2.2
    exact filterMap_refineParseLine_render _ (fun g hg => ⟨(h g (hfr ▸ hg)).1, (h g (hfr ▸ hg)).2.1⟩)

theorem genParseGo_numberedFrom (lines : List (List Char)) (s : Nat) :
    numberedFrom (s : Int) (genParseGo lines s) := by
  induction lines generalizing s with
  | nil => trivial
  | cons line0 rest ih =>
    unfold genParseGo
    split
    · refine ⟨rfl, ?_⟩
      have := ih (s + 1)
      have hc : ((s + 1 : Nat) : Int) = (s : Int) + 1 := by push_cast; ring
      rwa [hc] at this
    · exact ih s

theorem structTakeGo_eq_spec (num_frames : Nat) (i : Nat) (lines : List (List Char)) :
    structTakeGo num_frames i lines =
      (List.enumFrom i lines).filterMap (fun p =>
        if pyStrip p.2 ≠ [] ∧ p.1 < num_frames then
          some ⟨(if ':' ∈ pyStrip p.2 then
                   pyStrip ((pySplitOnce ':' (pyStrip p.2)).getLastD [])
                 else pyStrip p.2),
                ((p.1 : Int) + 1)⟩
        else none) := by
  induction lines generalizing i with
  | nil => rfl
  | cons line0 rest ih =>
    rw [List.enumFrom_cons, List.filterMap_cons]
    unfold structTakeGo
    by_cases hc : pyStrip line0 ≠ [] ∧ i < num_frames
    · rw [if_pos hc, if_pos hc, ih (i + 1)]
    · rw [if_neg hc, if_neg hc, ih (i + 1)]

theorem structTakeGo_length_le (num_frames i : Nat) (lines : List (List Char)) :
    (structTakeGo num_frames i lines).length ≤ num_frames - i := by
  induction lines generalizing i with
  | nil => simp [structTakeGo]
  | cons line0 rest ih =>
    unfold structTakeGo
    split
    · rename_i hc
      have h1 := ih (i + 1)
      simp only [List.length_cons]
      omega
    · have h1 := ih (i + 1)
      omega

theorem padFramesSpec_snoc (ph : List Char) (num_frames : Nat)
    (frames : List FrameDescription) (h : frames.length < num_frames) :
    padFramesSpec ph num_frames
        (frames ++ [⟨ph, ((frames.length : Int) + 1)⟩]) =
      padFramesSpec ph num_frames frames := by
  unfold padFramesSpec
  obtain ⟨m, hm⟩ : ∃ m, num_frames - frames.length = m + 1 :=
    ⟨num_frames - frames.length - 1, by omega⟩
  rw [hm]
  have hm' : num_frames - (frames ++ [(⟨ph, ((frames.length : Int) + 1)⟩ :
      FrameDescription)]).length = m := by
    simp
    omega
  rw [hm']
  rw [List.append_assoc, List.singleton_append]
  congr 1
  rw [List.range_succ_eq_map, List.map_cons, List.map_map]
  rw [List.cons.injEq]
  constructor
  · simp only [FrameDescription.mk.injEq]
    refine ⟨trivial, ?_⟩
    push_cast
    ring
  · apply List.map_congr_left
    intro j hj
    simp only [Function.comp_apply, List.length_append, List.length_cons,
      List.length_nil, FrameDescription.mk.injEq]
    refine ⟨trivial, ?_⟩
    push_cast
    ring

theorem padFramesAux_eq_spec (ph : List Char) (num_frames fuel : Nat)
    (frames : List FrameDescription) (hfuel : num_frames - frames.length ≤ fuel) :
    padFramesAux ph num_frames fuel frames = padFramesSpec ph num_frames frames := by
  induction fuel generalizing frames with
  | zero =>
    have h0 : num_frames - frames.length = 0 := by omega
    unfold padFramesAux padFramesSpec
    rw [h0]
    simp
  | succ f ih =>
    unfold padFramesAux
    by_cases hlt : frames.length < num_frames
    · rw [if_pos hlt]
      rw [ih _ (by simp; omega)]
      exact padFramesSpec_snoc ph num_frames frames hlt
    · rw [if_neg hlt]
      unfold padFramesSpec
      have h0 : num_frames - frames.length = 0 := by omega
      rw [h0]
      simp

theorem padFrames_eq_spec (ph : List Char) (num_frames : Nat)
    (frames : List FrameDescription) :
    padFrames ph num_frames frames = padFramesSpec ph num_frames frames :=
  padFramesAux_eq_spec ph num_frames num_frames frames (by omega)

theorem padFramesSpec_length (ph : List Char) (num_frames : Nat)
    (frames : List FrameDescription) :
    (padFramesSpec ph num_frames frames).length =
      frames.length + (num_frames - frames.length) := by
  unfold padFramesSpec
  simp

theorem generate_structured_eq_spec (prompt : List Char) (num_frames : Nat)
    (response : List Char) :
    generate_structured_frame_sequence prompt num_frames response =
      padFramesSpec (placeholderDescription prompt) num_frames
        (structTakeSpec num_frames (pySplitChar '\n' (pyStrip response))) := by
  unfold generate_structured_frame_sequence structTakeSpec
  rw [padFrames_eq_spec, structTakeGo_eq_spec]

theorem generate_structured_length (prompt : List Char) (num_frames : Nat)
    (response : List Char) :
    (generate_structured_frame_sequence prompt num_frames response).length =
      num_frames := by
  unfold generate_structured_frame_sequence
  rw [padFrames_eq_spec, padFramesSpec_length]
  have := structTakeGo_length_le num_frames 0 (pySplitChar '\n' (pyStrip response))
  omega

theorem refineParseHeap_extends (st : List FrameDescription) (response : List Char) :
    ∃ ext, (refineParseHeap st response).1 = st ++ ext := by
  unfold refineParseHeap
  generalize pySplitChar '\n' (pyStrip response) = lines
  suffices h : ∀ (acc : List FrameDescription × List Nat), ∃ ext,
      (lines.foldl (fun acc line =>
        match refineParseLine line with
        | some fd => ((heapAlloc acc.1 fd).1, acc.2 ++ [(heapAlloc acc.1 fd).2])
        | none => acc) acc).1 = acc.1 ++ ext by
    exact h (st, [])
  induction lines with
  | nil => exact fun acc => ⟨[], by simp⟩
  | cons line rest ih =>
    intro acc
    rw [List.foldl_cons]
    cases hp : refineParseLine line with
    | none =>
      simpa using ih acc
    | some fd =>
      obtain ⟨ext, hext⟩ := ih ((heapAlloc acc.1 fd).1, acc.2 ++ [(heapAlloc acc.1 fd).2])
      refine ⟨[fd] ++ ext, ?_⟩
      rw [hext]
      unfold heapAlloc
      simp

theorem reconcileHeap_extends (stP : List FrameDescription) (m : List (Int × List Char))
    (frameIds : List Nat) (acc0 : List FrameDescription × List Nat)
    : ∃ ext,
      (frameIds.foldl (fun acc oid =>
        match dictGet m (heapGet stP oid).frame_number with
        | some d =>
          ((heapAlloc acc.1 ⟨d, (heapGet stP oid).frame_number⟩).1,
            acc.2 ++ [(heapAlloc acc.1 ⟨d, (heapGet stP oid).frame_number⟩).2])
        | none => (acc.1, acc.2 ++ [oid])) acc0).1 = acc0.1 ++ ext := by
  induction frameIds generalizing acc0 with
  | nil => exact ⟨[], by simp⟩
  | cons oid rest ih =>
    rw [List.foldl_cons]
    cases hp : dictGet m (heapGet stP oid).frame_number with
    | none =>
      obtain ⟨ext, hext⟩ := ih (acc0.1, acc0.2 ++ [oid])
      exact ⟨ext, hext⟩
    | some d =>
      obtain ⟨ext, hext⟩ := ih
        ((heapAlloc acc0.1 ⟨d, (heapGet stP oid).frame_number⟩).1,
          acc0.2 ++ [(heapAlloc acc0.1 ⟨d, (heapGet stP oid).frame_number⟩).2])
      refine ⟨[⟨d, (heapGet stP oid).frame_number⟩] ++ ext, ?_⟩
      rw [hext]
      unfold heapAlloc
      simp

theorem genFrameImagesGo_eq_spec (api_key : Option (List Char)) (output_dir : List Char)
    (ts : Nat → List Char) (respOf : Nat → StabResponse) (i : Nat)
    (frames : List FrameDescription) :
    genFrameImagesGo api_key output_dir ts respOf i frames =
      (List.enumFrom i frames).filterMap (fun p =>
        (generate_image api_key (respOf p.1)).bind (fun img =>
          save_image output_dir (ts p.1) (some img) (frame_filename p.2))) := by
  induction frames generalizing i with
  | nil => rfl
  | cons f rest ih =>
    rw [List.enumFrom_cons, List.filterMap_cons]
    unfold genFrameImagesGo
    cases hg : generate_image api_key (respOf i) with
    | none =>
      rw [ih (i + 1)]
      rfl
    | some img =>
      unfold save_image
      have hpath : (output_dir ++ ['/'] ++ ts i ++ ['_'] ++
          clean_filename (frame_filename f) ++ ".png".toList) ≠ [] := by
        simp
      dsimp only
      rw [if_pos hpath, ih (i + 1)]
      rfl

theorem pySplitOnce_mem (sep : Char) (l : List Char) (h : sep ∈ l) :
    pySplitOnce sep l =
      [l.takeWhile (fun c => c ≠ sep), (l.dropWhile (fun c => c ≠ sep)).tail] := by
  induction l with
  | nil => cases h
  | cons x xs ih =>
    by_cases hx : x = sep
    · subst hx
      rw [pySplitOnce_cons, if_pos rfl, List.takeWhile_cons, List.dropWhile_cons]
      simp
    · rw [pySplitOnce_cons, if_neg hx]
      have hxs : sep ∈ xs := by
        rcases List.mem_cons.mp h with h1 | h1
        · exact absurd h1.symm hx
        · exact h1
      rw [ih hxs, List.takeWhile_cons, List.dropWhile_cons]
      simp [hx]

/-! ### Claim theorems -/

/-- Claim C1: the claim states that for every input list and reply,
`refine` returns a sequence of the same length whose `frame_number` at
every index equals the input's, in the original order.  The code
violates this: reconciliation only runs when the parsed count differs
from the input count, so a reply with the same number of parsed lines
but different numbering is returned as parsed.  Here the input frames
are numbered 1, 2 and the reply lists them as 2 then 1: the output at
position 0 carries `frame_number` 2, not 1. -/
theorem c1_refine_mirror_violation :
    refine_pure [⟨"a".toList, 1⟩, ⟨"b".toList, 2⟩]
        "Frame 2: y\nFrame 1: x".toList =
      [⟨"y".toList, 2⟩, ⟨"x".toList, 1⟩] ∧
    (refine_pure [⟨"a".toList, 1⟩, ⟨"b".toList, 2⟩]
        "Frame 2: y\nFrame 1: x".toList).map (fun f => f.frame_number) ≠ [1, 2] := by
  decide

/-- Claim C4: the claim states that a `Frame 2: X` reply line is ignored
(never injected) when the input frame numbers are exactly {1,3,5}.  The
code violates this: when the reply parses to the same count as the
input (here three lines), reconciliation is skipped and the parsed
frames — including the injected frame number 2 — are returned as-is. -/
theorem c4_refine_injection_violation :
    refine_pure [⟨"a".toList, 1⟩, ⟨"b".toList, 3⟩, ⟨"c".toList, 5⟩]
        "Frame 1: r1\nFrame 2: X\nFrame 3: r3".toList =
      [⟨"r1".toList, 1⟩, ⟨"X".toList, 2⟩, ⟨"r3".toList, 3⟩] ∧
    (refine_pure [⟨"a".toList, 1⟩, ⟨"b".toList, 3⟩, ⟨"c".toList, 5⟩]
        "Frame 1: r1\nFrame 2: X\nFrame 3: r3".toList).map
      (fun f => f.frame_number) = [1, 2, 3] := by
  decide

/-- Claim C2, counterexample: the claim states `generate(prompt, N)`
returns exactly N frames for every reply; with N = 1 and a first-pass
reply whose two lines both start with `"Frame"`, the loose parse accepts
both, `2 < 1` fails, and both frames are returned. -/
theorem c2_counterexample :
    (generate_frame_sequence "p".toList 1 "Frame: a\nFrame: b".toList
      "".toList).length = 2 := by
  decide

/-- Claim C2 (amended): `generate(prompt, N)` returns AT LEAST N frames.
When the first-pass parse accepts fewer than N lines, the structured
fallback result is returned and has exactly N frames (though its
numbering need not be `1..N`, see C3); when the first pass accepts
`k ≥ N` lines, all k frames are returned, numbered `1..k` contiguously
in ascending order. -/
theorem c2_generate_amended (prompt : List Char) (num_frames : Nat)
    (r1 r2 : List Char) :
    num_frames ≤ (generate_frame_sequence prompt num_frames r1 r2).length ∧
    ((generate_first_parse r1).length < num_frames →
      generate_frame_sequence prompt num_frames r1 r2 =
        generate_structured_frame_sequence prompt num_frames r2 ∧
      (generate_frame_sequence prompt num_frames r1 r2).length = num_frames) ∧
    (num_frames ≤ (generate_first_parse r1).length →
      generate_frame_sequence prompt num_frames r1 r2 = generate_first_parse r1 ∧
      numberedFrom 1 (generate_frame_sequence prompt num_frames r1 r2)) := by
  unfold generate_frame_sequence
  by_cases h : (generate_first_parse r1).length < num_frames
  · rw [if_pos h]
    refine ⟨?_, fun _ => ⟨rfl, generate_structured_length prompt num_frames r2⟩,
      fun h2 => absurd h2 (by omega)⟩
    rw [generate_structured_length]
  · rw [if_neg h]
    refine ⟨by omega, fun h2 => absurd h2 (by omega), fun _ => ⟨rfl, ?_⟩⟩
    unfold generate_first_parse
    have := genParseGo_numberedFrom (pySplitChar '\n' (pyStrip r1)) 1
    simpa using this

/-- Witness for C2 (amended) at a concrete input: one well-formed reply
line with N = 1. -/
theorem c2_generate_amended_witness :
    1 ≤ (generate_frame_sequence "p".toList 1 "Frame 1: a".toList "".toList).length ∧
    generate_frame_sequence "p".toList 1 "Frame 1: a".toList "".toList =
      generate_first_parse "Frame 1: a".toList :=
  ⟨(c2_generate_amended "p".toList 1 "Frame 1: a".toList "".toList).1,
   ((c2_generate_amended "p".toList 1 "Frame 1: a".toList "".toList).2.2
     (by decide)).1⟩

/-- Claim C3, counterexample: the claim states the structured fallback
numbers taken lines positionally `1..count_taken` and pads to a
contiguous `1..N`.  With N = 3 and reply `"a\n\nb"` the blank middle
line is skipped but still consumes line index 1, so the taken frames are
numbered 1 and 3 (by line index, not positionally), and the padding
frame reuses number 3 — the result is numbered [1,3,3], not [1,2,3]. -/
theorem c3_counterexample :
    (generate_structured_frame_sequence "p".toList 3 "a\n\nb".toList).map
        (fun f => f.frame_number) = [1, 3, 3] ∧
    (generate_structured_frame_sequence "p".toList 3 "a\n\nb".toList).map
        (fun f => f.frame_number) ≠ [1, 2, 3] := by
  decide

/-- Claim C3 (amended): the structured fallback considers the first N
lines of the reply; a non-blank line at 0-based index i (i < N) yields
one frame numbered `i + 1` — numbering is by line index (not
positionally by count of taken lines, and not by any number found in
the text); blank lines among the first N are skipped and leave gaps;
the description is the text after the first `':'` when present, else
the whole stripped line; afterwards placeholder frames derived from the
original prompt are appended, numbered `count+1, count+2, ...`, until
exactly N frames exist (so the final numbering is contiguous `1..N`
exactly when no blank line occurred among the first N lines). -/
theorem c3_structured_amended (prompt : List Char) (num_frames : Nat)
    (response : List Char) :
    generate_structured_frame_sequence prompt num_frames response =
      padFramesSpec (placeholderDescription prompt) num_frames
        (structTakeSpec num_frames (pySplitChar '\n' (pyStrip response))) ∧
    (generate_structured_frame_sequence prompt num_frames response).length =
      num_frames :=
  ⟨generate_structured_eq_spec prompt num_frames response,
   generate_structured_length prompt num_frames response⟩

/-- Claim C5: during refine reconciliation (which the code enters
exactly when the parsed count differs from the input count), the
parsed-number-to-description mapping takes the LAST occurrence when a
number repeats, and the output has one entry per original frame, in the
original order, keeping the original `frame_number`: the refined
description is substituted when the mapping contains that number,
otherwise the original frame is kept unchanged. -/
theorem c5_reconciliation (frames : List FrameDescription) (response : List Char)
    (h : (refineParse response).length ≠ frames.length) :
    refine_pure frames response =
      frames.map (fun original =>
        match lastParsedDescriptionSpec (refineParse response)
            original.frame_number with
        | some d => ⟨d, original.frame_number⟩
        | none => original) := by
  unfold refine_pure
  rw [if_pos h]
  apply List.map_congr_left
  intro o ho
  rw [dictGet_buildRefinedMap_go]

/-- Witness for C5 at a concrete input: one original frame, a reply with
a repeated frame number 1 (last occurrence `y` wins) and a stray frame
number 2 (ignored). -/
theorem c5_reconciliation_witness :
    (refineParse "Frame 1: x\nFrame 1: y\nFrame 2: z".toList).length ≠
      ([⟨"a".toList, 1⟩] : List FrameDescription).length ∧
    refine_pure [⟨"a".toList, 1⟩] "Frame 1: x\nFrame 1: y\nFrame 2: z".toList =
      [⟨"y".toList, 1⟩] :=
  ⟨by decide,
   by rw [c5_reconciliation [⟨"a".toList, 1⟩]
       "Frame 1: x\nFrame 1: y\nFrame 2: z".toList (by decide)]; decide⟩

/-- Claim C6: a refine-reply line contributes a parsed frame if and only
if, after stripping, it is non-empty, starts with the literal word
`"Frame"`, contains a `':'`, and the segment before the first `':'`
parses as an integer after deleting the word `"Frame"`; every line
failing any of these is skipped without an error (the parse is total
and simply yields nothing for such a line). -/
theorem c6_line_qualification (line0 : List Char) :
    (∃ fd, refineParseLine line0 = some fd) ↔ refineLineQualifiesSpec line0 := by
  unfold refineParseLine refineLineQualifiesSpec
  by_cases h1 : pyStrip line0 = []
  · rw [if_pos h1]
    simp [h1]
  · rw [if_neg h1]
    by_cases h2 : "Frame".toList.isPrefixOf (pyStrip line0) = true
    · rw [if_pos h2]
      by_cases h3 : ':' ∈ pyStrip line0
      · rw [pySplitOnce_mem ':' _ h3]
        dsimp only
        cases h4 : pyParseInt (pyStrip (pyReplace "Frame".toList []
            (List.takeWhile (fun c => decide (c ≠ ':')) (pyStrip line0)))) with
        | some n =>
          simp [h1, h3]
          simpa using List.isPrefixOf_iff_prefix.mp h2
        | none =>
          simp [h1, h3]
      · rw [pySplitOnce_no_sep ':' _ h3]
        simp [h1, h2, h3]
    · rw [if_neg h2]
      have h2' : ¬ (['F', 'r', 'a', 'm', 'e'] <+: pyStrip line0) := by
        intro hp
        exact h2 (List.isPrefixOf_iff_prefix.mpr (by simpa using hp))
      simp [h1, h2']

/-- Witness for C6 at a concrete input: the line `"Frame 2: x"`
qualifies, and the theorem transports that across the equivalence. -/
theorem c6_line_qualification_witness :
    refineLineQualifiesSpec "Frame 2: x".toList ∧
    (∃ fd, refineParseLine "Frame 2: x".toList = some fd) := by
  have hq : refineLineQualifiesSpec "Frame 2: x".toList := by
    unfold refineLineQualifiesSpec
    decide
  exact ⟨hq, (c6_line_qualification "Frame 2: x".toList).mpr hq⟩

/-- Claim C7: the completion call fails (raises) exactly when the
backing service's status is not 200, and the error message carries the
response text; `refine` itself never fails on model-output
irregularities — its result is an error exactly when, and with exactly
the error of, the underlying completion call. -/
theorem c7_completion_error (messages : List (List Char × List Char))
    (resp : HFResponse) :
    ((∃ e, call_llm messages resp = Except.error e) ↔ resp.status ≠ 200) ∧
    (resp.status ≠ 200 → call_llm messages resp =
      Except.error ("Error from Hugging Face API: ".toList ++ resp.text)) ∧
    (∀ frames prompt e,
      refine_frame_sequence_full frames prompt resp = Except.error e ↔
        call_llm (refine_messages frames prompt) resp = Except.error e) := by
  have hok : ∀ msgs, resp.status = 200 → ∀ e, call_llm msgs resp ≠ Except.error e := by
    intro msgs h200 e he
    unfold call_llm at he
    rw [if_neg (by omega)] at he
    cases hb : resp.body with
    | jlist l =>
      cases l with
      | nil => rw [hb] at he; cases he
      | cons g t => rw [hb] at he; cases he
    | jdict g => rw [hb] at he; cases he
    | other => rw [hb] at he; cases he
  refine ⟨⟨?_, ?_⟩, ?_, ?_⟩
  · rintro ⟨e, he⟩
    by_contra h200
    have h200' : resp.status = 200 := by omega
    exact hok messages h200' e he
  · intro h
    exact ⟨"Error from Hugging Face API: ".toList ++ resp.text,
      by unfold call_llm; rw [if_pos h]⟩
  · intro h
    unfold call_llm
    rw [if_pos h]
  · intro frames prompt e
    unfold refine_frame_sequence_full
    cases hc : call_llm (refine_messages frames prompt) resp with
    | error e' => simp
    | ok r => simp

/-- Witness for C7 at a concrete input: a 404 response with body text
`"boom"` makes the completion call fail with that text surfaced. -/
theorem c7_completion_error_witness :
    ((404 : Nat) ≠ 200) ∧
    call_llm [] ⟨404, "boom".toList, HFBody.other⟩ =
      Except.error ("Error from Hugging Face API: ".toList ++ "boom".toList) :=
  ⟨by decide, (c7_completion_error [] ⟨404, "boom".toList, HFBody.other⟩).2.1
    (by decide)⟩

/-- Claim C8: single-prompt image generation returns `none` (not an
error) when the service key is absent/empty, when the response status is
not 200, and when the response carries no artifact; and the batch over a
frame list equals the per-frame composition in which each frame
contributes its own saved path exactly when its own generation
succeeded — a per-frame failure is invisible to the other frames and
nothing is raised. -/
theorem c8_image_failures :
    (∀ resp, generate_image none resp = none) ∧
    (∀ k resp, resp.status ≠ 200 → generate_image k resp = none) ∧
    (∀ k resp, resp.artifacts = [] → generate_image k resp = none) ∧
    (∀ api_key output_dir ts respOf frames,
      generate_frame_images api_key output_dir ts respOf frames =
        frameImagesSpec api_key output_dir ts respOf frames) := by
  refine ⟨?_, ?_, ?_, ?_⟩
  · intro resp
    rfl
  · intro k resp h
    unfold generate_image
    by_cases hk : k.getD [] = []
    · rw [if_pos hk]
    · rw [if_neg hk, if_pos h]
  · intro k resp h
    unfold generate_image
    by_cases hk : k.getD [] = []
    · rw [if_pos hk]
    · rw [if_neg hk]
      by_cases hs : resp.status ≠ 200
      · rw [if_pos hs]
      · rw [if_neg hs, h]
  · intro api_key output_dir ts respOf frames
    unfold generate_frame_images frameImagesSpec
    exact genFrameImagesGo_eq_spec api_key output_dir ts respOf 0 frames

/-- Witness for C8 at concrete inputs: a 404 response and an
artifact-free 200 response each yield `none` even with a key present. -/
theorem c8_image_failures_witness :
    ((404 : Nat) ≠ 200 ∧ generate_image (some ['k']) ⟨404, [['i']]⟩ = none) ∧
    (generate_image (some ['k']) ⟨200, []⟩ = none) :=
  ⟨⟨by decide, c8_image_failures.2.1 (some ['k']) ⟨404, [['i']]⟩ (by decide)⟩,
   c8_image_failures.2.2.1 (some ['k']) ⟨200, []⟩ rfl⟩

/-- Claim C9: refining a well-formatted sequence — every description
non-empty, free of newlines and strip-clean — with a reply that echoes
the rendered `Frame k: description` lines unchanged returns the input
itself, so in particular descriptions identical to the input's. -/
theorem c9_echo_refine (frames : List FrameDescription)
    (h : ∀ f ∈ frames, f.description ≠ [] ∧
      pyStrip f.description = f.description ∧ '\n' ∉ f.description) :
    refine_pure frames (render_frames frames) = frames := by
  have hp := refineParse_render_frames frames h
  unfold refine_pure
  rw [hp, if_neg (fun hh => hh rfl)]

/-- Witness for C9 at a concrete input: two clean frames; the echoed
render refines to the identical sequence. -/
theorem c9_echo_refine_witness :
    (∀ f ∈ ([⟨"a".toList, 1⟩, ⟨"b c".toList, 2⟩] : List FrameDescription),
      f.description ≠ [] ∧ pyStrip f.description = f.description ∧
        '\n' ∉ f.description) ∧
    refine_pure [⟨"a".toList, 1⟩, ⟨"b c".toList, 2⟩]
        (render_frames [⟨"a".toList, 1⟩, ⟨"b c".toList, 2⟩]) =
      [⟨"a".toList, 1⟩, ⟨"b c".toList, 2⟩] :=
  ⟨by decide, c9_echo_refine [⟨"a".toList, 1⟩, ⟨"b c".toList, 2⟩] (by decide)⟩

/-- Claim C10: refine never mutates its input.  In the heap model every
`FrameDescription` is a store cell and the input is a list of cell
references: running refine only ever APPENDS freshly allocated cells
(parsed frames, substituted frames), so the final store extends the
initial one — every input cell, and hence the input list, is unchanged;
kept originals are passed through as the very same references. -/
theorem c10_refine_no_mutation (st : List FrameDescription) (frameIds : List Nat)
    (response : List Char) :
    ∃ ext, (refine_pure_heap st frameIds response).1 = st ++ ext := by
  unfold refine_pure_heap
  obtain ⟨ext1, h1⟩ := refineParseHeap_extends st response
  by_cases h : (refineParseHeap st response).2.length ≠ frameIds.length
  · rw [if_pos h]
    obtain ⟨ext2, h2⟩ := reconcileHeap_extends (refineParseHeap st response).1
      (refinedMapHeap st response) frameIds ((refineParseHeap st response).1, [])
    refine ⟨ext1 ++ ext2, ?_⟩
    rw [h2]
    show (refineParseHeap st response).1 ++ ext2 = st ++ (ext1 ++ ext2)
    rw [h1, List.append_assoc]
  · rw [if_neg h]
    exact ⟨ext1, h1⟩
